import Mathlib

/-!
Shallow embedding of the region-extraction component of the dreamhouse
repository.

Mask mode comes from `backend/app/services/segmentation_service.py`
(`_calculate_mask_overlap`, `_filter_masks`, the object-building loop of
`_segment_image`, and the decode / empty-result control flow of
`extract_and_classify_furniture`).  Color mode comes from
`pipeline/pipeline.py` (`detect_rectangles_bfs`).

Conventions: NumPy float arrays are modelled as rational grids; masks are
assumed to be at image resolution (the `cv2.resize` call is modelled as the
identity); external collaborators (cv2.imdecode, the FastSAM model, the
classification calls) are parameters of the embedding.
-/

namespace Dreamhouse

/-- A raw soft mask: rows of values (floats modelled as rationals). -/
abbrev RawMask := List (List ℚ)

/-- A binarized mask, the result of `mask_np > 0.5`. -/
abbrev BoolGrid := List (List Bool)

/-- The rational one half, the `0.5` threshold (`mkRat` is used instead of
`/` throughout the definitions because it reduces in the kernel; it agrees
with division, see `mkRat_natCast_eq_div`). -/
def oneHalf : ℚ := mkRat 1 2

/-- The `mkRat` used in the definitions agrees with rational division. -/
theorem mkRat_natCast_eq_div (n d : ℕ) : mkRat (n : ℤ) d = (n : ℚ) / (d : ℚ) := by
  rw [Rat.mkRat_eq_divInt, Rat.divInt_eq_div]
  norm_num

/-- The threshold constant is one half. -/
theorem oneHalf_eq_div : oneHalf = (1 : ℚ) / 2 := by
  rw [oneHalf, Rat.mkRat_eq_divInt, Rat.divInt_eq_div]
  norm_num

/-- Row-wise binarization `mask_bool = mask_np > 0.5`. -/
def binarize (m : RawMask) : BoolGrid :=
  m.map (fun row => row.map (fun v => decide (oneHalf < v)))

/-- Pixel area of a boolean mask, `np.sum(mask_bool)`. -/
def gridArea (g : BoolGrid) : ℕ :=
  (g.map (fun row => row.countP (fun b => b))).sum

/-- Intersection area, `np.sum(np.logical_and(mask1, mask2))` for two grids
of the same shape (zip truncates at the common shape). -/
def interArea (g1 g2 : BoolGrid) : ℕ :=
  ((g1.zip g2).map (fun rr => (rr.1.zip rr.2).countP (fun p => p.1 && p.2))).sum

/-- `_calculate_mask_overlap`: intersection area divided by the smaller of
the two mask areas, and `0.0` when the smaller area is zero. -/
def maskOverlap (g1 g2 : BoolGrid) : ℚ :=
  let smaller := min (gridArea g1) (gridArea g2)
  if 0 < smaller then mkRat (interArea g1 g2 : ℤ) smaller else 0

/-- Bounding box of the true pixels of a grid, in the coordinates produced
by `np.argwhere` (row `y` first, column `x` second). -/
structure BBoxN where
  y1 : ℕ
  x1 : ℕ
  y2 : ℕ
  x2 : ℕ
  deriving DecidableEq

/-- Coordinates `(y, x)` of the true pixels, row-major (`np.argwhere`). -/
def gridCoords (g : BoolGrid) : List (ℕ × ℕ) :=
  (List.enumFrom 0 g).flatMap (fun yr =>
    (List.enumFrom 0 yr.2).filterMap (fun xb =>
      if xb.2 then some (yr.1, xb.1) else none))

/-- `coords.min(axis=0)` and `coords.max(axis=0)`: componentwise minima and
maxima of the true-pixel coordinates, `none` when the mask is empty. -/
def bboxOf (g : BoolGrid) : Option BBoxN :=
  match gridCoords g with
  | [] => none
  | c :: cs =>
    some (cs.foldl
      (fun bb p => ⟨min bb.y1 p.1, min bb.x1 p.2, max bb.y2 p.1, max bb.x2 p.2⟩)
      ⟨c.1, c.2, c.1, c.2⟩)

/-- The record stored in `mask_data` for each surviving mask. -/
structure MaskData where
  index : ℕ
  mask : BoolGrid
  area : ℕ
  deriving DecidableEq

/-- One iteration of the first loop of `_filter_masks`: binarize mask `i`,
skip it when it has no true pixel, compute the bounding box, and drop the
mask when `width_ratio > max_size_ratio or height_ratio > max_size_ratio`
(`r` is `max_size_ratio`). -/
def maskDataOf (imgH imgW : ℕ) (r : ℚ) (i : ℕ) (m : RawMask) : Option MaskData :=
  let g := binarize m
  match bboxOf g with
  | none => none
  | some bb =>
    let width := bb.x2 - bb.x1 + 1
    let height := bb.y2 - bb.y1 + 1
    if (mkRat (width : ℤ) imgW > r ∨ mkRat (height : ℤ) imgH > r) then none
    else some ⟨i, g, gridArea g⟩

/-- The `mask_data` list built by the first loop of `_filter_masks`. -/
def sizeFiltered (masks : List RawMask) (imgH imgW : ℕ) (r : ℚ) : List MaskData :=
  (List.enumFrom 0 masks).filterMap (fun im => maskDataOf imgH imgW r im.1 im.2)

/-- Order used by `mask_data.sort(key=lambda x: x["area"], reverse=True)`:
`a` may come before `b` when the area of `b` does not exceed that of `a`. -/
def areaGE (a b : MaskData) : Prop := b.area ≤ a.area

instance : DecidableRel areaGE := fun a b => Nat.decLe b.area a.area

/-- Python sort is stable, so the descending-by-area sort with ties kept in
original order is the stable insertion sort under `areaGE`. -/
def sortByAreaDesc (l : List MaskData) : List MaskData :=
  List.insertionSort areaGE l

/-- The greedy overlap-suppression loop of `_filter_masks`, fueled (the fuel
is set to the list length, which the loop never exhausts): the head of the
surviving list is kept, and every later mask whose overlap with it strictly
exceeds the threshold `t` is removed before recursing. -/
def greedyFilterGo (t : ℚ) : ℕ → List MaskData → List MaskData
  | 0, _ => []
  | _ + 1, [] => []
  | fuel + 1, d :: rest =>
    d :: greedyFilterGo t fuel
      (rest.filter (fun e => decide (maskOverlap d.mask e.mask ≤ t)))

/-- The greedy overlap-suppression pass over the sorted `mask_data`. -/
def greedyFilter (t : ℚ) (l : List MaskData) : List MaskData :=
  greedyFilterGo t l.length l

/-- `_filter_masks(masks, img_shape, max_size_ratio=r, overlap_threshold=t)`:
size filtering, stable descending-area sort, greedy overlap suppression,
and the final `return sorted(to_keep)`. -/
def filterMasks (masks : List RawMask) (imgH imgW : ℕ) (r t : ℚ) : List ℕ :=
  List.insertionSort (· ≤ ·)
    ((greedyFilter t (sortByAreaDesc (sizeFiltered masks imgH imgW r))).map
      MaskData.index)

/-! Object building loop of `_segment_image` (lines 265-332): each kept mask
index produces a detected-object record with a running id (`len(detected_objects) + 1`),
a bounding box taken from the FastSAM `boxes` when available (falling back to
the mask coordinates, skipping masks with no true pixel), the pixel
dimensions `x2 - x1` and `y2 - y1`, the mask area, the original mask index,
and the position in the filtered list. -/

/-- A FastSAM box in `xyxy` order (floats modelled as rationals). -/
abbrev Box := ℚ × ℚ × ℚ × ℚ

/-- A detected object as assembled by `_segment_image` (the fields that the
claims are about; normalized fields are derived from these). -/
structure DetObj where
  id : ℕ
  x1 : ℚ
  y1 : ℚ
  x2 : ℚ
  y2 : ℚ
  widthPixels : ℚ
  heightPixels : ℚ
  areaPixels : ℕ
  maskIndex : ℕ
  filteredIndex : ℕ
  deriving DecidableEq

/-- One iteration of the `for idx, i in enumerate(keep_indices)` loop:
`i` is the original mask index, `idx` the position in the filtered list and
`count` the number of objects appended so far. -/
def objOf (masks : List RawMask) (boxes : Option (List Box)) (i idx count : ℕ) :
    Option DetObj :=
  let g := binarize (masks.getD i [])
  let bb : Option Box :=
    match boxes with
    | some bs =>
      if i < bs.length then some (bs.getD i (0, 0, 0, 0))
      else
        match bboxOf g with
        | none => none
        | some b => some ((b.x1 : ℚ), (b.y1 : ℚ), (b.x2 : ℚ), (b.y2 : ℚ))
    | none =>
      match bboxOf g with
      | none => none
      | some b => some ((b.x1 : ℚ), (b.y1 : ℚ), (b.x2 : ℚ), (b.y2 : ℚ))
  match bb with
  | none => none
  | some (bx1, by1, bx2, by2) =>
    some ⟨count + 1, bx1, by1, bx2, by2, bx2 - bx1, by2 - by1, gridArea g, i, idx⟩

/-- The object-building loop over the kept indices, threading the enumerate
position `idx` and the length `count` of the accumulated object list. -/
def buildObjectsGo (masks : List RawMask) (boxes : Option (List Box)) :
    List ℕ → ℕ → ℕ → List DetObj
  | [], _, _ => []
  | i :: rest, idx, count =>
    match objOf masks boxes i idx count with
    | none => buildObjectsGo masks boxes rest (idx + 1) count
    | some o => o :: buildObjectsGo masks boxes rest (idx + 1) (count + 1)

/-- The detected objects built by `_segment_image` from the kept indices. -/
def buildObjects (masks : List RawMask) (boxes : Option (List Box))
    (keep : List ℕ) : List DetObj :=
  buildObjectsGo masks boxes keep 0 0

/-! Color mode: `detect_rectangles_bfs` from `pipeline/pipeline.py`. -/

/-- An RGB color with integer channels. -/
structure RGB where
  r : ℕ
  g : ℕ
  b : ℕ
  deriving DecidableEq

/-- A decoded image: dimensions and a pixel function indexed as
`rgb_image[y, x]` (the function is total; out-of-bounds pixels are never
read thanks to the bounds checks). -/
structure Img where
  width : ℕ
  height : ℕ
  pix : ℤ → ℤ → RGB

/-- Module constant `rectangle_pixel_dist_lenience = 5`. -/
def rectanglePixelDistLenience : ℕ := 5

/-- Module constant `color_similarity_threshold = 50`. -/
def colorSimilarityThreshold : ℕ := 50

/-- Sum of per-channel absolute differences between two colors. -/
def colorDiff (c1 c2 : RGB) : ℕ :=
  Nat.dist c1.r c2.r + Nat.dist c1.g c2.g + Nat.dist c1.b c2.b

/-- `rgb_variance = max([abs(r-g), abs(g-b), abs(r-b)])`. -/
def rgbVariance (c : RGB) : ℕ :=
  max (Nat.dist c.r c.g) (max (Nat.dist c.g c.b) (Nat.dist c.r c.b))

/-- `is_grayscale = rgb_variance < 75`. -/
def isGrayscale (c : RGB) : Bool := rgbVariance c < 75

/-- `is_near_black = r < 20 and g < 20 and b < 20`. -/
def isNearBlack (c : RGB) : Bool := c.r < 20 && c.g < 20 && c.b < 20

/-- `is_near_white = r > 235 and g > 235 and b > 235`. -/
def isNearWhite (c : RGB) : Bool := 235 < c.r && 235 < c.g && 235 < c.b

/-- The seed-skip condition `is_grayscale or is_near_black or is_near_white`. -/
def isBackgroundPixel (c : RGB) : Bool :=
  isGrayscale c || isNearBlack c || isNearWhite c

/-- The offsets `range(-lenience, lenience + 1)`. -/
def offsetRange : List ℤ :=
  (List.range (2 * rectanglePixelDistLenience + 1)).map
    (fun k : ℕ => (k : ℤ) - (rectanglePixelDistLenience : ℤ))

/-- The `(dx, dy)` pairs scanned around a dequeued pixel, with the
`dx == 0 and dy == 0` pair skipped. -/
def neighborOffsets : List (ℤ × ℤ) :=
  (offsetRange.flatMap (fun dx => offsetRange.map (fun dy => (dx, dy)))).filter
    (fun d => decide (d ≠ ((0 : ℤ), (0 : ℤ))))

/-- The in-bounds test `0 <= nx < width and 0 <= ny < height` for a
position `(x, y)`. -/
def inBoundsPos (img : Img) (p : ℤ × ℤ) : Prop :=
  0 ≤ p.1 ∧ p.1 < (img.width : ℤ) ∧ 0 ≤ p.2 ∧ p.2 < (img.height : ℤ)

instance (img : Img) (p : ℤ × ℤ) : Decidable (inBoundsPos img p) :=
  inferInstanceAs (Decidable (_ ∧ _ ∧ _ ∧ _))

/-- The neighbors of a dequeued pixel `c` that one pass of the inner double
loop marks visited and enqueues: in-bounds, not yet visited, and with color
within the similarity threshold of the fixed `target_color`. -/
def bfsNeighbors (img : Img) (target : RGB) (visited : List (ℤ × ℤ))
    (c : ℤ × ℤ) : List (ℤ × ℤ) :=
  neighborOffsets.filterMap (fun d =>
    if inBoundsPos img (c.1 + d.1, c.2 + d.2)
        ∧ (c.1 + d.1, c.2 + d.2) ∉ visited
        ∧ colorDiff (img.pix (c.2 + d.2) (c.1 + d.1)) target
            < colorSimilarityThreshold then
      some (c.1 + d.1, c.2 + d.2)
    else none)

/-- Running bounds `min_x, max_x, min_y, max_y` of a connected component. -/
structure BBoxI where
  minX : ℤ
  maxX : ℤ
  minY : ℤ
  maxY : ℤ
  deriving DecidableEq

/-- The `while queue:` loop of `detect_rectangles_bfs`, fueled: dequeue a
pixel, fold it into the bounds, then mark and enqueue its acceptable
neighbors.  Every enqueued pixel is distinct and in bounds, so a fuel of
`width * height + 1` is never exhausted. -/
def bfsLoop (img : Img) (target : RGB) :
    ℕ → List (ℤ × ℤ) → List (ℤ × ℤ) → BBoxI → List (ℤ × ℤ) × BBoxI
  | 0, _, visited, bounds => (visited, bounds)
  | _ + 1, [], visited, bounds => (visited, bounds)
  | fuel + 1, c :: queue, visited, bounds =>
    let newBounds : BBoxI :=
      ⟨min bounds.minX c.1, max bounds.maxX c.1,
       min bounds.minY c.2, max bounds.maxY c.2⟩
    let ns := bfsNeighbors img target visited c
    bfsLoop img target fuel (queue ++ ns) (visited ++ ns) newBounds

/-- The BFS started at an unvisited non-background seed `p`: the seed is
marked visited, enqueued, and the bounds start at the seed position; the
comparison color is the seed pixel's color throughout. -/
def bfsFromSeed (img : Img) (visited : List (ℤ × ℤ)) (p : ℤ × ℤ) :
    List (ℤ × ℤ) × BBoxI :=
  bfsLoop img (img.pix p.2 p.1) (img.width * img.height + 1) [p]
    (visited ++ [p]) ⟨p.1, p.1, p.2, p.2⟩

/-- A detected rectangle `(min_x, min_y, width_rect, height_rect, color)`. -/
structure Rect where
  x : ℤ
  y : ℤ
  w : ℤ
  h : ℤ
  color : RGB
  deriving DecidableEq

/-- The scan state: the global visited set and the accumulated rectangles. -/
structure ScanState where
  visited : List (ℤ × ℤ)
  rects : List Rect
  deriving DecidableEq

/-- The body of the raster scan of `detect_rectangles_bfs` for one pixel
`p = (x, y)`: skip visited pixels and background pixels, otherwise run the
BFS and keep the component only when
`(max_x - min_x) > 10 and (max_y - min_y) > 10`. -/
def scanPixel (img : Img) (st : ScanState) (p : ℤ × ℤ) : ScanState :=
  if p ∈ st.visited then st
  else
    let c := img.pix p.2 p.1
    if isBackgroundPixel c then st
    else
      let res := bfsFromSeed img st.visited p
      let bb := res.2
      if 10 < bb.maxX - bb.minX ∧ 10 < bb.maxY - bb.minY then
        ⟨res.1,
         st.rects ++ [⟨bb.minX, bb.minY, bb.maxX - bb.minX, bb.maxY - bb.minY, c⟩]⟩
      else ⟨res.1, st.rects⟩

/-- Raster-order positions `(x, y)` for `for y in range(height): for x in
range(width)`. -/
def rasterPositions (img : Img) : List (ℤ × ℤ) :=
  (List.range img.height).flatMap (fun y : ℕ =>
    (List.range img.width).map (fun x : ℕ => ((x : ℤ), (y : ℤ))))

/-- `detect_rectangles_bfs`: scan every pixel in raster order and return the
accumulated rectangle list. -/
def detectRectanglesBfs (img : Img) : List Rect :=
  ((rasterPositions img).foldl (scanPixel img) ⟨[], []⟩).rects

/-- A 10x10 test image, white except for three red pixels at `(0,0)`,
`(5,5)` and `(9,9)` (each within the 5-pixel neighbor radius of the next):
one connected component whose bounding box spans 10 pixels in each axis. -/
def imgThreeDots : Img :=
  ⟨10, 10, fun y x =>
    if (y = 0 ∧ x = 0) ∨ (y = 5 ∧ x = 5) ∨ (y = 9 ∧ x = 9) then ⟨255, 0, 0⟩
    else ⟨255, 255, 255⟩⟩

/-- A 12x12 test image, white except for four red pixels at `(0,0)`,
`(5,5)`, `(10,10)` and `(11,11)`: one connected component whose bounding
box extents are 11 in each axis. -/
def imgFourDots : Img :=
  ⟨12, 12, fun y x =>
    if (y = 0 ∧ x = 0) ∨ (y = 5 ∧ x = 5) ∨ (y = 10 ∧ x = 10)
        ∨ (y = 11 ∧ x = 11) then ⟨255, 0, 0⟩
    else ⟨255, 255, 255⟩⟩

/-! Control flow of `extract_and_classify_furniture` (decode and early
returns).  `cv2.imdecode`, FastSAM segmentation and the classification tail
are external collaborators, passed as functions. -/

/-- Failure of one extraction call.  The single decode-failure case models
the `raise ValueError("Could not decode image")` that the specification
names `DecodeError`. -/
inductive SegError where
  | decodeError
  deriving DecidableEq

/-- The decode / early-return skeleton of `extract_and_classify_furniture`:
raise when the buffer does not decode, return `[]` (a non-error value) when
segmentation yields no objects, and otherwise hand the objects to the
classification tail.  No partial result exists: the error case carries no
objects. -/
def extractAndClassifyFurniture {α : Type} (decodeImage : List ℕ → Option Img)
    (segmentImage : Img → List DetObj)
    (classifyObjects : Img → List DetObj → List α)
    (imageBytes : List ℕ) : Except SegError (List α) :=
  match decodeImage imageBytes with
  | none => Except.error SegError.decodeError
  | some image =>
    let detected := segmentImage image
    if detected.isEmpty then Except.ok []
    else Except.ok (classifyObjects image detected)

/-! Helper lemmas about the mask-mode pipeline. -/

theorem maskDataOf_fields {imgH imgW : ℕ} {r : ℚ} {i : ℕ} {m : RawMask}
    {d : MaskData} (h : maskDataOf imgH imgW r i m = some d) :
    d.index = i ∧ d.mask = binarize m ∧ d.area = gridArea (binarize m) := by
  simp only [maskDataOf] at h
  split at h
  · exact absurd h (by simp)
  · split at h
    · exact absurd h (by simp)
    · injection h with h2
      subst h2
      exact ⟨rfl, rfl, rfl⟩

theorem mem_sizeFiltered {masks : List RawMask} {imgH imgW : ℕ} {r : ℚ}
    {d : MaskData} :
    d ∈ sizeFiltered masks imgH imgW r ↔
      ∃ k, ∃ hk : k < masks.length,
        maskDataOf imgH imgW r k (masks.get ⟨k, hk⟩) = some d := by
  unfold sizeFiltered
  rw [List.mem_filterMap]
  constructor
  · rintro ⟨⟨k, m⟩, hmem, hf⟩
    rw [List.mk_mem_enumFrom_iff_le_and_getElem?_sub] at hmem
    obtain ⟨-, hget⟩ := hmem
    rw [Nat.sub_zero] at hget
    have hk : k < masks.length := by
      by_contra hk
      rw [List.getElem?_eq_none (Nat.le_of_not_lt hk)] at hget
      exact Option.noConfusion hget
    refine ⟨k, hk, ?_⟩
    have hm : masks.get ⟨k, hk⟩ = m := by
      rw [List.getElem?_eq_getElem hk] at hget
      simpa [List.get_eq_getElem] using Option.some.inj hget
    rw [hm]
    exact hf
  · rintro ⟨k, hk, hf⟩
    refine ⟨(k, masks.get ⟨k, hk⟩), ?_, hf⟩
    rw [List.mk_mem_enumFrom_iff_le_and_getElem?_sub]
    refine ⟨Nat.zero_le _, ?_⟩
    rw [Nat.sub_zero, List.getElem?_eq_getElem hk]
    simp [List.get_eq_getElem]

theorem greedyFilterGo_subset {t : ℚ} :
    ∀ (fuel : ℕ) (l : List MaskData), ∀ d ∈ greedyFilterGo t fuel l, d ∈ l := by
  intro fuel
  induction fuel with
  | zero => intro l d hd; simp [greedyFilterGo] at hd
  | succ fuel ih =>
    intro l d hd
    cases l with
    | nil => simp [greedyFilterGo] at hd
    | cons a rest =>
      simp only [greedyFilterGo] at hd
      rcases List.mem_cons.mp hd with rfl | hd2
      · exact List.mem_cons_self _ _
      · exact List.mem_cons_of_mem _ (List.mem_of_mem_filter (ih _ _ hd2))

theorem greedyFilterGo_pairwise {t : ℚ} :
    ∀ (fuel : ℕ) (l : List MaskData),
      List.Pairwise (fun a b => maskOverlap a.mask b.mask ≤ t)
        (greedyFilterGo t fuel l) := by
  intro fuel
  induction fuel with
  | zero => intro l; simp [greedyFilterGo]
  | succ fuel ih =>
    intro l
    cases l with
    | nil => simp [greedyFilterGo]
    | cons a rest =>
      simp only [greedyFilterGo]
      refine List.Pairwise.cons ?_ (ih _)
      intro e he
      have he2 := List.mem_filter.mp (greedyFilterGo_subset fuel _ e he)
      exact of_decide_eq_true he2.2

theorem filterMasks_mem_origin {masks : List RawMask} {imgH imgW : ℕ}
    {r t : ℚ} {i : ℕ} (h : i ∈ filterMasks masks imgH imgW r t) :
    ∃ d ∈ sizeFiltered masks imgH imgW r, d.index = i := by
  unfold filterMasks greedyFilter at h
  rw [List.mem_insertionSort] at h
  obtain ⟨d, hd, hdi⟩ := List.mem_map.mp h
  refine ⟨d, ?_, hdi⟩
  have h2 := greedyFilterGo_subset _ _ _ hd
  unfold sortByAreaDesc at h2
  rw [List.mem_insertionSort] at h2
  exact h2

/-- A size ratio `mkRat width imgW` of a bounding-box dimension is never
negative. -/
theorem maskDataOf_none_of_neg {imgH imgW : ℕ} {r : ℚ} (hr : r < 0)
    (i : ℕ) (m : RawMask) : maskDataOf imgH imgW r i m = none := by
  simp only [maskDataOf]
  split
  · rfl
  · rename_i bb hbb
    rw [if_pos]
    left
    calc r < 0 := hr
    _ ≤ mkRat ((bb.x2 - bb.x1 + 1 : ℕ) : ℤ) imgW := by
        rw [mkRat_natCast_eq_div]
        positivity

/-- C10: `_calculate_mask_overlap` is total: when the smaller of the two
mask areas is zero it returns `0.0` instead of dividing by zero, so the
division in overlap filtering is guarded and filtering cannot fail on an
empty mask. -/
theorem c10_overlap_zero_guard (g1 g2 : BoolGrid)
    (h : min (gridArea g1) (gridArea g2) = 0) : maskOverlap g1 g2 = 0 := by
  unfold maskOverlap
  simp [h]

theorem c10_witness :
    min (gridArea []) (gridArea [[true]]) = 0 ∧ maskOverlap [] [[true]] = 0 :=
  ⟨by decide, c10_overlap_zero_guard [] [[true]] (by decide)⟩

/-- C8 (amended): no configuration validation exists anywhere in
`_filter_masks` or `detect_rectangles_bfs`; an out-of-range threshold does
not raise.  A negative `max_size_ratio` silently filters out every mask and
the call returns an empty keep list instead of failing fast. -/
theorem c8_no_config_validation (masks : List RawMask) (imgH imgW : ℕ)
    (r t : ℚ) (hr : r < 0) : filterMasks masks imgH imgW r t = [] := by
  have hsf : sizeFiltered masks imgH imgW r = [] := by
    unfold sizeFiltered
    rw [List.filterMap_eq_nil_iff]
    intro a _
    exact maskDataOf_none_of_neg hr a.1 a.2
  unfold filterMasks sortByAreaDesc greedyFilter
  rw [hsf]
  rfl

/-- C8 counterexample to the claim as stated: with `max_size_ratio = -1`
(out of its valid range) `_filter_masks` runs to completion and returns a
plain empty keep list; no `ConfigurationError` exists in the code and
nothing fails fast before processing. -/
theorem c8_counterexample :
    filterMasks [[[1, 0], [0, 0]]] 2 2 (-1) (mkRat 1 2) = [] := by decide

theorem c8_witness :
    ((-1 : ℚ) < 0) ∧ filterMasks [[[1, 0], [0, 0]]] 2 2 (-1) (mkRat 1 2) = [] :=
  ⟨by norm_num,
   c8_no_config_validation [[[1, 0], [0, 0]]] 2 2 (-1) (mkRat 1 2) (by norm_num)⟩

theorem countP_and_zip_comm :
    ∀ (r1 r2 : List Bool),
      (r1.zip r2).countP (fun p => p.1 && p.2)
        = (r2.zip r1).countP (fun p => p.1 && p.2) := by
  intro r1
  induction r1 with
  | nil => intro r2; cases r2 <;> rfl
  | cons a t ih =>
    intro r2
    cases r2 with
    | nil => rfl
    | cons b t2 =>
      simp only [List.zip_cons_cons, List.countP_cons, ih t2, Bool.and_comm]

/-- The intersection area `np.sum(np.logical_and(mask1, mask2))` is
symmetric in the two masks. -/
theorem interArea_comm : ∀ (g1 g2 : BoolGrid), interArea g1 g2 = interArea g2 g1 := by
  intro g1
  induction g1 with
  | nil => intro g2; cases g2 <;> rfl
  | cons r t ih =>
    intro g2
    cases g2 with
    | nil => rfl
    | cons r2 t2 =>
      have e : ∀ (a b : List Bool) (x y : BoolGrid),
          interArea (a :: x) (b :: y)
            = (a.zip b).countP (fun p => p.1 && p.2) + interArea x y :=
        fun _ _ _ _ => rfl
      rw [e, e, countP_and_zip_comm, ih t2]

/-- `_calculate_mask_overlap` is symmetric in its two masks. -/
theorem maskOverlap_comm (g1 g2 : BoolGrid) :
    maskOverlap g1 g2 = maskOverlap g2 g1 := by
  unfold maskOverlap
  rw [interArea_comm, min_comm]

/-- Shared computation: for a two-mask input where both masks pass the size
filter, the first has at least the area of the second, and their overlap
strictly exceeds the threshold, `_filter_masks` keeps exactly the first
mask (the stable sort keeps the order `[d0, d1]`, and the greedy pass
removes `d1`). -/
theorem filterMasks_pair {imgH imgW : ℕ} {r t : ℚ} {m0 m1 : RawMask}
    {d0 d1 : MaskData}
    (h0 : maskDataOf imgH imgW r 0 m0 = some d0)
    (h1 : maskDataOf imgH imgW r 1 m1 = some d1)
    (hle : d1.area ≤ d0.area)
    (hov : t < maskOverlap d0.mask d1.mask) :
    filterMasks [m0, m1] imgH imgW r t = [0] := by
  have hsf : sizeFiltered [m0, m1] imgH imgW r = [d0, d1] := by
    unfold sizeFiltered
    simp [List.enumFrom, h0, h1]
  have hsort : sortByAreaDesc [d0, d1] = [d0, d1] := by
    unfold sortByAreaDesc
    simp [List.insertionSort, List.orderedInsert, areaGE, hle]
  have hno : ¬ (maskOverlap d0.mask d1.mask ≤ t) := not_le.mpr hov
  have hg : greedyFilter t [d0, d1] = [d0] := by
    unfold greedyFilter
    simp [greedyFilterGo, List.filter, hno]
  have hidx : d0.index = 0 := (maskDataOf_fields h0).1
  unfold filterMasks
  rw [hsf, hsort, hg]
  simp [List.insertionSort, List.orderedInsert, hidx]

/-- Shared computation, reversed order: for a two-mask input where both
masks pass the size filter, the second mask is strictly larger, and the
overlap strictly exceeds the threshold, `_filter_masks` keeps exactly the
second mask (the descending-area sort moves it first, and the greedy pass
removes the other). -/
theorem filterMasks_pair_rev {imgH imgW : ℕ} {r t : ℚ} {m0 m1 : RawMask}
    {d0 d1 : MaskData}
    (h0 : maskDataOf imgH imgW r 0 m0 = some d0)
    (h1 : maskDataOf imgH imgW r 1 m1 = some d1)
    (hlt : d0.area < d1.area)
    (hov : t < maskOverlap d0.mask d1.mask) :
    filterMasks [m0, m1] imgH imgW r t = [1] := by
  have hsf : sizeFiltered [m0, m1] imgH imgW r = [d0, d1] := by
    unfold sizeFiltered
    simp [List.enumFrom, h0, h1]
  have hsort : sortByAreaDesc [d0, d1] = [d1, d0] := by
    unfold sortByAreaDesc
    simp [List.insertionSort, List.orderedInsert, areaGE, hlt.not_le]
  have hno : ¬ (maskOverlap d1.mask d0.mask ≤ t) := by
    rw [maskOverlap_comm]
    exact not_le.mpr hov
  have hg : greedyFilter t [d1, d0] = [d1] := by
    unfold greedyFilter
    simp [greedyFilterGo, List.filter, hno]
  have hidx : d1.index = 1 := (maskDataOf_fields h1).1
  unfold filterMasks
  rw [hsf, hsort, hg]
  simp [List.insertionSort, List.orderedInsert, hidx]

/-- C1 (amended): after size filtering, masks are sorted by area descending
and a mask is greedily kept only when its overlap with every previously
kept mask is AT MOST `overlap_threshold` (the code suppresses only on
strict excess `overlap > overlap_threshold`, so an overlap exactly equal to
the threshold survives).  Consequently any two kept masks overlap by at
most the threshold, so for every pair of masks whose overlap strictly
exceeds the threshold at most one of the two survives, in any input; and
for a two-mask input where both masks pass the size filter and the overlap
strictly exceeds the threshold, whichever mask has the larger area survives
alone (on an area tie, the first, lower-indexed mask), the other being
excluded. -/
theorem c1_overlap_suppression (masks : List RawMask) (imgH imgW : ℕ)
    (r t : ℚ) :
    List.Pairwise (fun a b => maskOverlap a.mask b.mask ≤ t)
      (greedyFilter t (sortByAreaDesc (sizeFiltered masks imgH imgW r)))
    ∧ (∀ (m0 m1 : RawMask) (d0 d1 : MaskData),
        maskDataOf imgH imgW r 0 m0 = some d0 →
        maskDataOf imgH imgW r 1 m1 = some d1 →
        t < maskOverlap d0.mask d1.mask →
        (d1.area ≤ d0.area → filterMasks [m0, m1] imgH imgW r t = [0])
        ∧ (d0.area < d1.area → filterMasks [m0, m1] imgH imgW r t = [1])) :=
  ⟨greedyFilterGo_pairwise _ _,
   fun _ _ _ _ h0 h1 hov =>
     ⟨fun hle => filterMasks_pair h0 h1 hle hov,
      fun hlt => filterMasks_pair_rev h0 h1 hlt hov⟩⟩

/-- C1 counterexample to the claim as stated, in two parts.  First, mask 1
overlaps mask 0 by exactly the threshold fraction 1/2 of its (smaller)
area, i.e. at least `overlap_threshold`, yet both masks survive because
the code only suppresses on `overlap > overlap_threshold`: the smaller
mask is not excluded and the kept masks do not all overlap strictly below
the threshold.  Second, in a three-mask input (areas 6, 4, 3) the pair of
masks 1 and 2 overlaps by 2/3 of the smaller's area — strictly above the
threshold — yet the SMALLER mask 2 survives while the larger mask 1 is
suppressed (by mask 0), so "only the larger-area mask survives" fails for
pairs inside larger inputs: only "at most one of the pair survives" holds. -/
theorem c1_counterexample :
    (maskOverlap (binarize [[1], [1], [1], [1]])
        (binarize [[1], [0], [0], [0], [0], [1]]) = mkRat 1 2
      ∧ gridArea (binarize [[1], [0], [0], [0], [0], [1]])
          < gridArea (binarize [[1], [1], [1], [1]])
      ∧ filterMasks [[[1], [1], [1], [1]], [[1], [0], [0], [0], [0], [1]]]
          20 20 (mkRat 1 2) (mkRat 1 2) = [0, 1])
    ∧ (mkRat 1 2 < maskOverlap (binarize [[0], [0], [0], [1], [1], [1], [1]])
          (binarize [[0], [0], [0], [0], [0], [1], [1], [1]])
      ∧ gridArea (binarize [[0], [0], [0], [0], [0], [1], [1], [1]])
          < gridArea (binarize [[0], [0], [0], [1], [1], [1], [1]])
      ∧ filterMasks
          [[[1], [1], [1], [1], [1], [1]],
           [[0], [0], [0], [1], [1], [1], [1]],
           [[0], [0], [0], [0], [0], [1], [1], [1]]]
          30 30 (mkRat 1 2) (mkRat 1 2) = [0, 2]) :=
  ⟨⟨by decide, by decide, by decide⟩, ⟨by decide, by decide, by decide⟩⟩

theorem c1_witness :
    (maskDataOf 10 10 (mkRat 1 2) 0 [[1], [1], [1], [1]]
      = some ⟨0, [[true], [true], [true], [true]], 4⟩)
    ∧ (maskDataOf 10 10 (mkRat 1 2) 1 [[1], [1]]
      = some ⟨1, [[true], [true]], 2⟩)
    ∧ (2 : ℕ) ≤ 4
    ∧ mkRat 1 2 < maskOverlap [[true], [true], [true], [true]] [[true], [true]]
    ∧ filterMasks [[[1], [1], [1], [1]], [[1], [1]]] 10 10 (mkRat 1 2)
        (mkRat 1 2) = [0]
    ∧ filterMasks [[[1], [1]], [[1], [1], [1], [1]]] 10 10 (mkRat 1 2)
        (mkRat 1 2) = [1] :=
  ⟨by decide, by decide, by decide, by decide,
   ((c1_overlap_suppression [] 10 10 (mkRat 1 2) (mkRat 1 2)).2
     [[1], [1], [1], [1]] [[1], [1]]
     ⟨0, [[true], [true], [true], [true]], 4⟩ ⟨1, [[true], [true]], 2⟩
     (by decide) (by decide) (by decide)).1 (by decide),
   ((c1_overlap_suppression [] 10 10 (mkRat 1 2) (mkRat 1 2)).2
     [[1], [1]] [[1], [1], [1], [1]]
     ⟨0, [[true], [true]], 2⟩ ⟨1, [[true], [true], [true], [true]], 4⟩
     (by decide) (by decide) (by decide)).2 (by decide)⟩

/-- C7: for a two-mask input of identical pixel area overlapping by 9/10 of
the smaller area, with `overlap_threshold = 0.5`, exactly one region is
retained: the one processed first in the sorted-by-area order.  The stable
sort keeps the area tie in original order, so the mask with the lower
original index (mask 0) survives. -/
theorem c7_equal_area_tie_break (imgH imgW : ℕ) (r : ℚ) (m0 m1 : RawMask)
    (d0 d1 : MaskData)
    (h0 : maskDataOf imgH imgW r 0 m0 = some d0)
    (h1 : maskDataOf imgH imgW r 1 m1 = some d1)
    (harea : d0.area = d1.area)
    (hov : maskOverlap d0.mask d1.mask = mkRat 9 10) :
    filterMasks [m0, m1] imgH imgW r (mkRat 1 2) = [0] := by
  refine filterMasks_pair h0 h1 (le_of_eq harea.symm) ?_
  rw [hov]
  decide

theorem c7_witness :
    (maskDataOf 30 30 (mkRat 1 2) 0
        [[1], [1], [1], [1], [1], [1], [1], [1], [1], [1]]
      = some ⟨0, [[true], [true], [true], [true], [true], [true], [true],
          [true], [true], [true]], 10⟩)
    ∧ (maskDataOf 30 30 (mkRat 1 2) 1
        [[0], [1], [1], [1], [1], [1], [1], [1], [1], [1], [1]]
      = some ⟨1, [[false], [true], [true], [true], [true], [true], [true],
          [true], [true], [true], [true]], 10⟩)
    ∧ filterMasks
        [[[1], [1], [1], [1], [1], [1], [1], [1], [1], [1]],
         [[0], [1], [1], [1], [1], [1], [1], [1], [1], [1], [1]]]
        30 30 (mkRat 1 2) (mkRat 1 2) = [0] :=
  ⟨by decide, by decide,
   c7_equal_area_tie_break 30 30 (mkRat 1 2)
     [[1], [1], [1], [1], [1], [1], [1], [1], [1], [1]]
     [[0], [1], [1], [1], [1], [1], [1], [1], [1], [1], [1]]
     ⟨0, [[true], [true], [true], [true], [true], [true], [true], [true],
         [true], [true]], 10⟩
     ⟨1, [[false], [true], [true], [true], [true], [true], [true], [true],
         [true], [true], [true]], 10⟩
     (by decide) (by decide) (by decide) (by decide)⟩

/-- C2 (amended): a mask with nonempty binarized support survives the size
filter if and only if its bounding-box width ratio and height ratio are
each AT MOST `max_size_ratio` (the code drops a mask only on strict excess
`ratio > max_size_ratio`, so a ratio exactly equal to the threshold
survives); and every mask whose width or height ratio strictly exceeds
`max_size_ratio` is excluded from the returned keep list regardless of its
area or overlap. -/
theorem c2_size_filter (masks : List RawMask) (imgH imgW : ℕ) (r t : ℚ)
    (i : ℕ) (hi : i < masks.length) (bb : BBoxN)
    (hbb : bboxOf (binarize (masks.get ⟨i, hi⟩)) = some bb) :
    ((∃ d ∈ sizeFiltered masks imgH imgW r, d.index = i) ↔
      (((bb.x2 - bb.x1 + 1 : ℕ) : ℚ) / (imgW : ℚ) ≤ r
        ∧ ((bb.y2 - bb.y1 + 1 : ℕ) : ℚ) / (imgH : ℚ) ≤ r))
    ∧ ((r < ((bb.x2 - bb.x1 + 1 : ℕ) : ℚ) / (imgW : ℚ)
        ∨ r < ((bb.y2 - bb.y1 + 1 : ℕ) : ℚ) / (imgH : ℚ)) →
        i ∉ filterMasks masks imgH imgW r t) := by
  have hfwd : ∀ d : MaskData,
      maskDataOf imgH imgW r i (masks.get ⟨i, hi⟩) = some d →
      (((bb.x2 - bb.x1 + 1 : ℕ) : ℚ) / (imgW : ℚ) ≤ r
        ∧ ((bb.y2 - bb.y1 + 1 : ℕ) : ℚ) / (imgH : ℚ) ≤ r) := by
    intro d hd
    simp only [maskDataOf] at hd
    split at hd
    · exact absurd hd (by simp)
    · rename_i bb2 heq
      rw [hbb] at heq
      injection heq with heq
      subst heq
      split at hd
      · exact absurd hd (by simp)
      · rename_i hc
        rw [not_or, not_lt, not_lt, mkRat_natCast_eq_div, mkRat_natCast_eq_div]
          at hc
        exact hc
  have hbwd :
      ((bb.x2 - bb.x1 + 1 : ℕ) : ℚ) / (imgW : ℚ) ≤ r →
      ((bb.y2 - bb.y1 + 1 : ℕ) : ℚ) / (imgH : ℚ) ≤ r →
      maskDataOf imgH imgW r i (masks.get ⟨i, hi⟩)
        = some ⟨i, binarize (masks.get ⟨i, hi⟩),
            gridArea (binarize (masks.get ⟨i, hi⟩))⟩ := by
    intro hw hh
    simp only [maskDataOf, hbb]
    rw [if_neg]
    rw [not_or, not_lt, not_lt, mkRat_natCast_eq_div, mkRat_natCast_eq_div]
    exact ⟨hw, hh⟩
  have horigin : ∀ d ∈ sizeFiltered masks imgH imgW r, d.index = i →
      maskDataOf imgH imgW r i (masks.get ⟨i, hi⟩) = some d := by
    intro d hd hdi
    obtain ⟨k, hk, hfk⟩ := mem_sizeFiltered.mp hd
    have hk2 : d.index = k := (maskDataOf_fields hfk).1
    have : k = i := by rw [← hk2, hdi]
    subst this
    exact hfk
  constructor
  · constructor
    · rintro ⟨d, hd, hdi⟩
      exact hfwd d (horigin d hd hdi)
    · rintro ⟨hw, hh⟩
      exact ⟨_, mem_sizeFiltered.mpr ⟨i, hi, hbwd hw hh⟩, rfl⟩
  · intro hgt hmem
    obtain ⟨d, hd, hdi⟩ := filterMasks_mem_origin hmem
    have := hfwd d (horigin d hd hdi)
    rcases hgt with hgt | hgt
    · exact absurd this.1 (not_le.mpr hgt)
    · exact absurd this.2 (not_le.mpr hgt)

/-- C2 counterexample to the claim as stated: in a 2x2 image a single-pixel
mask has width and height ratios exactly 1/2 = `max_size_ratio`; the ratio
is not BELOW the threshold, yet the mask survives filtering and appears in
the returned keep list. -/
theorem c2_counterexample :
    filterMasks [[[1, 0], [0, 0]]] 2 2 (mkRat 1 2) (mkRat 1 2) = [0]
    ∧ bboxOf (binarize [[1, 0], [0, 0]]) = some ⟨0, 0, 0, 0⟩
    ∧ ¬ (((0 - 0 + 1 : ℕ) : ℚ) / ((2 : ℕ) : ℚ) < mkRat 1 2) := by
  refine ⟨by decide, by decide, ?_⟩
  rw [← mkRat_natCast_eq_div]
  decide

theorem c2_witness :
    (0 < ([[[1, 0], [0, 0]]] : List RawMask).length)
    ∧ (∃ d ∈ sizeFiltered [[[1, 0], [0, 0]]] 2 2 (mkRat 1 2), d.index = 0) := by
  refine ⟨by decide, ?_⟩
  refine (c2_size_filter [[[1, 0], [0, 0]]] 2 2 (mkRat 1 2) (mkRat 1 2) 0
    (by decide) ⟨0, 0, 0, 0⟩ (by decide)).1.mpr ⟨?_, ?_⟩
  · rw [← mkRat_natCast_eq_div]
    decide
  · rw [← mkRat_natCast_eq_div]
    decide

theorem objOf_fields {masks : List RawMask} {boxes : Option (List Box)}
    {i idx count : ℕ} {o : DetObj} (h : objOf masks boxes i idx count = some o) :
    o.id = count + 1 ∧ o.maskIndex = i ∧ o.filteredIndex = idx := by
  simp only [objOf] at h
  split at h
  · exact absurd h (by simp)
  · injection h with h2
    subst h2
    exact ⟨rfl, rfl, rfl⟩

theorem buildObjectsGo_map_id (masks : List RawMask) (boxes : Option (List Box)) :
    ∀ (l : List ℕ) (idx count : ℕ),
      (buildObjectsGo masks boxes l idx count).map DetObj.id
        = List.range' (count + 1) (buildObjectsGo masks boxes l idx count).length := by
  intro l
  induction l with
  | nil => intro idx count; simp [buildObjectsGo]
  | cons i rest ih =>
    intro idx count
    simp only [buildObjectsGo]
    split
    · exact ih (idx + 1) count
    · rename_i o hobj
      rw [List.map_cons, List.length_cons, List.range'_succ,
        (objOf_fields hobj).1, ih (idx + 1) (count + 1)]

theorem buildObjectsGo_fields (masks : List RawMask) (boxes : Option (List Box)) :
    ∀ (l : List ℕ) (idx count : ℕ) (o : DetObj),
      o ∈ buildObjectsGo masks boxes l idx count →
      idx ≤ o.filteredIndex ∧ o.filteredIndex - idx < l.length
        ∧ l.getD (o.filteredIndex - idx) 0 = o.maskIndex := by
  intro l
  induction l with
  | nil => intro idx count o ho; simp [buildObjectsGo] at ho
  | cons i rest ih =>
    intro idx count o ho
    simp only [buildObjectsGo] at ho
    split at ho
    · obtain ⟨h1, h2, h3⟩ := ih (idx + 1) count o ho
      have hs : o.filteredIndex - idx = (o.filteredIndex - (idx + 1)) + 1 := by
        omega
      refine ⟨by omega, by simp [hs]; omega, ?_⟩
      rw [hs, List.getD_cons_succ]
      exact h3
    · rename_i o2 hobj
      rcases List.mem_cons.mp ho with rfl | ho2
      · obtain ⟨-, hmi, hfi⟩ := objOf_fields hobj
        refine ⟨le_of_eq hfi.symm, ?_, ?_⟩
        · simp [hfi]
        · rw [hfi, Nat.sub_self, List.getD_cons_zero, hmi]
      · obtain ⟨h1, h2, h3⟩ := ih (idx + 1) (count + 1) o ho2
        have hs : o.filteredIndex - idx = (o.filteredIndex - (idx + 1)) + 1 := by
          omega
        refine ⟨by omega, by simp [hs]; omega, ?_⟩
        rw [hs, List.getD_cons_succ]
        exact h3

/-- C9: the keep list returned by `_filter_masks` (`return sorted(to_keep)`)
is sorted in ascending original-mask-index order, not in descending-area
order; the objects built from a keep list carry consecutive ids `1..n` in
that order (`id = len(detected_objects) + 1`), and each object records its
position in the filtered list (`filtered_index`) together with the original
mask index found at that position of the keep list (`mask_index`). -/
theorem c9_keep_sorted_ids (masks : List RawMask) (boxes : Option (List Box))
    (imgH imgW : ℕ) (r t : ℚ) (keep : List ℕ) :
    List.Sorted (· ≤ ·) (filterMasks masks imgH imgW r t)
    ∧ (buildObjects masks boxes keep).map DetObj.id
        = List.range' 1 (buildObjects masks boxes keep).length
    ∧ (∀ o ∈ buildObjects masks boxes keep,
        o.filteredIndex < keep.length
          ∧ keep.getD o.filteredIndex 0 = o.maskIndex) := by
  refine ⟨?_, ?_, ?_⟩
  · unfold filterMasks
    exact List.sorted_insertionSort _ _
  · exact buildObjectsGo_map_id masks boxes keep 0 0
  · intro o ho
    obtain ⟨-, h2, h3⟩ := buildObjectsGo_fields masks boxes keep 0 0 o ho
    rw [Nat.sub_zero] at h2 h3
    exact ⟨h2, h3⟩

theorem c9_witness :
    ((⟨1, 0, 0, 0, 0, 0, 0, 1, 0, 0⟩ : DetObj) ∈ buildObjects [[[1]]] none [0])
    ∧ ((⟨1, 0, 0, 0, 0, 0, 0, 1, 0, 0⟩ : DetObj).filteredIndex
          < ([0] : List ℕ).length
        ∧ ([0] : List ℕ).getD
            (⟨1, 0, 0, 0, 0, 0, 0, 1, 0, 0⟩ : DetObj).filteredIndex 0
          = (⟨1, 0, 0, 0, 0, 0, 0, 1, 0, 0⟩ : DetObj).maskIndex) :=
  ⟨by with_unfolding_all decide,
   (c9_keep_sorted_ids [[[1]]] none 1 1 (mkRat 1 2) (mkRat 1 2) [0]).2.2 _
     (by with_unfolding_all decide)⟩

/-! Helper lemmas for the color-mode flood fill. -/

theorem mem_offsetRange {z : ℤ} : z ∈ offsetRange ↔ z.natAbs ≤ 5 := by
  show z ∈ (List.range 11).map (fun k : ℕ => (k : ℤ) - 5) ↔ z.natAbs ≤ 5
  rw [List.mem_map]
  constructor
  · rintro ⟨k, hk, rfl⟩
    have := List.mem_range.mp hk
    omega
  · intro h
    exact ⟨(z + 5).toNat, List.mem_range.mpr (by omega), by omega⟩

theorem mem_neighborOffsets {d : ℤ × ℤ} :
    d ∈ neighborOffsets ↔
      d.1.natAbs ≤ 5 ∧ d.2.natAbs ≤ 5 ∧ d ≠ ((0 : ℤ), (0 : ℤ)) := by
  unfold neighborOffsets
  rw [List.mem_filter]
  constructor
  · rintro ⟨hmem, hne⟩
    obtain ⟨dx, hdx, hmem2⟩ := List.mem_flatMap.mp hmem
    obtain ⟨dy, hdy, rfl⟩ := List.mem_map.mp hmem2
    exact ⟨mem_offsetRange.mp hdx, mem_offsetRange.mp hdy,
      of_decide_eq_true hne⟩
  · rintro ⟨h1, h2, h3⟩
    refine ⟨List.mem_flatMap.mpr ⟨d.1, mem_offsetRange.mpr h1,
      List.mem_map.mpr ⟨d.2, mem_offsetRange.mpr h2, rfl⟩⟩, decide_eq_true h3⟩

theorem mem_bfsNeighbors {img : Img} {target : RGB}
    {visited : List (ℤ × ℤ)} {c n : ℤ × ℤ} :
    n ∈ bfsNeighbors img target visited c ↔
      (n ≠ c ∧ (n.1 - c.1).natAbs ≤ 5 ∧ (n.2 - c.2).natAbs ≤ 5
        ∧ inBoundsPos img n ∧ n ∉ visited
        ∧ colorDiff (img.pix n.2 n.1) target < 50) := by
  unfold bfsNeighbors
  rw [List.mem_filterMap]
  constructor
  · rintro ⟨d, hd, hif⟩
    obtain ⟨h1, h2, h3⟩ := mem_neighborOffsets.mp hd
    split at hif
    · rename_i hcond
      injection hif with hif
      subst hif
      refine ⟨?_, by simp; omega, by simp; omega, hcond.1, hcond.2.1,
        hcond.2.2⟩
      intro heq
      rw [Prod.ext_iff] at heq
      simp only [] at heq
      apply h3
      rw [Prod.ext_iff]
      exact ⟨by omega, by omega⟩
    · exact absurd hif (by simp)
  · rintro ⟨hne, h1, h2, hb, hv, hc⟩
    refine ⟨(n.1 - c.1, n.2 - c.2), mem_neighborOffsets.mpr
      ⟨by simpa using h1, by simpa using h2, ?_⟩, ?_⟩
    · intro heq
      rw [Prod.ext_iff] at heq
      apply hne
      rw [Prod.ext_iff]
      simp only [] at heq ⊢
      exact ⟨by omega, by omega⟩
    · have e1 : c.1 + (n.1 - c.1) = n.1 := by omega
      have e2 : c.2 + (n.2 - c.2) = n.2 := by omega
      simp only [e1, e2, Prod.mk.eta]
      rw [if_pos ⟨hb, hv, hc⟩]

theorem bfsLoop_visited_sound {img : Img} {target : RGB} :
    ∀ (fuel : ℕ) (queue visited : List (ℤ × ℤ)) (bounds : BBoxI)
      (p : ℤ × ℤ),
      p ∈ (bfsLoop img target fuel queue visited bounds).1 →
      p ∈ visited ∨ colorDiff (img.pix p.2 p.1) target < 50 := by
  intro fuel
  induction fuel with
  | zero =>
    intro q v b p hp
    simp only [bfsLoop] at hp
    exact Or.inl hp
  | succ fuel ih =>
    intro q v b p hp
    cases q with
    | nil =>
      simp only [bfsLoop] at hp
      exact Or.inl hp
    | cons c rest =>
      simp only [bfsLoop] at hp
      rcases ih _ _ _ p hp with hin | hc
      · rcases List.mem_append.mp hin with h | h
        · exact Or.inl h
        · exact Or.inr (mem_bfsNeighbors.mp h).2.2.2.2.2
      · exact Or.inr hc

/-- C3: in the color-mode BFS, a neighbor is marked and enqueued from a
dequeued region pixel exactly when it is a distinct pixel within the
neighbor radius 5 in both axes, in bounds, unvisited, and the sum of
per-channel absolute differences between its color and the fixed target
color is below 50; the target is the seed pixel's color throughout the
whole search (never updated as the region grows), so every pixel the BFS
ever visits beyond the initial state is within tolerance 50 of the seed
pixel's color. -/
theorem c3_seed_anchored_tolerance (img : Img) (target : RGB)
    (visited : List (ℤ × ℤ)) (c n : ℤ × ℤ) (fuel : ℕ)
    (queue visited2 : List (ℤ × ℤ)) (bounds : BBoxI) (seed : ℤ × ℤ) :
    (n ∈ bfsNeighbors img target visited c ↔
      (n ≠ c ∧ (n.1 - c.1).natAbs ≤ 5 ∧ (n.2 - c.2).natAbs ≤ 5
        ∧ inBoundsPos img n ∧ n ∉ visited
        ∧ colorDiff (img.pix n.2 n.1) target < 50))
    ∧ (∀ p ∈ (bfsLoop img target fuel queue visited2 bounds).1,
        p ∈ visited2 ∨ colorDiff (img.pix p.2 p.1) target < 50)
    ∧ (∀ p ∈ (bfsFromSeed img visited seed).1,
        p ∈ visited ∨ p = seed
          ∨ colorDiff (img.pix p.2 p.1) (img.pix seed.2 seed.1) < 50) := by
  refine ⟨mem_bfsNeighbors, fun p hp => bfsLoop_visited_sound _ _ _ _ p hp, ?_⟩
  intro p hp
  rcases bfsLoop_visited_sound _ _ _ _ p hp with hin | hc
  · rcases List.mem_append.mp hin with h | h
    · exact Or.inl h
    · exact Or.inr (Or.inl (List.mem_singleton.mp h))
  · exact Or.inr (Or.inr hc)

theorem c3_witness :
    (((1 : ℤ), (0 : ℤ))
        ∈ (bfsFromSeed ⟨2, 1, fun _ _ => ⟨255, 0, 0⟩⟩ [] (0, 0)).1)
    ∧ (((1 : ℤ), (0 : ℤ)) ∈ ([] : List (ℤ × ℤ))
        ∨ ((1 : ℤ), (0 : ℤ)) = ((0 : ℤ), (0 : ℤ))
        ∨ colorDiff ((Img.mk 2 1 (fun _ _ => ⟨255, 0, 0⟩)).pix 0 1)
            ((Img.mk 2 1 (fun _ _ => ⟨255, 0, 0⟩)).pix 0 0) < 50) :=
  ⟨by decide,
   (c3_seed_anchored_tolerance ⟨2, 1, fun _ _ => ⟨255, 0, 0⟩⟩ ⟨255, 0, 0⟩ []
      (0, 0) (0, 0) 0 [] [] ⟨0, 0, 0, 0⟩ (0, 0)).2.2 (1, 0) (by decide)⟩

theorem foldl_eq_self {α β : Type} (f : β → α → β) (s : β) :
    ∀ (l : List α), (∀ a ∈ l, f s a = s) → l.foldl f s = s := by
  intro l
  induction l with
  | nil => intro _; rfl
  | cons a tl ih =>
    intro h
    rw [List.foldl_cons, h a (List.mem_cons_self a tl)]
    exact ih (fun b hb => h b (List.mem_cons_of_mem a hb))

theorem mem_rasterPositions {img : Img} {p : ℤ × ℤ}
    (hp : p ∈ rasterPositions img) :
    ∃ x y : ℕ, x < img.width ∧ y < img.height ∧ p = ((x : ℤ), (y : ℤ)) := by
  unfold rasterPositions at hp
  obtain ⟨y, hy, hp2⟩ := List.mem_flatMap.mp hp
  obtain ⟨x, hx, rfl⟩ := List.mem_map.mp hp2
  exact ⟨x, y, List.mem_range.mp hx, List.mem_range.mp hy, rfl⟩

/-- C5: when every pixel of the image is grayscale (maximum pairwise
channel difference below 75) or near-pure black (all channels below 20) or
near-pure white (all channels above 235), no pixel can seed a region, so
`detect_rectangles_bfs` returns the empty list. -/
theorem c5_background_only_empty (img : Img)
    (h : ∀ y x : ℕ, y < img.height → x < img.width →
      isBackgroundPixel (img.pix (y : ℤ) (x : ℤ)) = true) :
    detectRectanglesBfs img = [] := by
  have hfix : (rasterPositions img).foldl (scanPixel img) ⟨[], []⟩
      = (⟨[], []⟩ : ScanState) := by
    apply foldl_eq_self
    intro p hp
    obtain ⟨x, y, hx, hy, rfl⟩ := mem_rasterPositions hp
    simp [scanPixel, h y x hy hx]
  unfold detectRectanglesBfs
  rw [hfix]

/-- Scenario A: a 100x100 all-white image yields an empty region set. -/
theorem c5_witness :
    detectRectanglesBfs ⟨100, 100, fun _ _ => ⟨255, 255, 255⟩⟩ = [] :=
  c5_background_only_empty ⟨100, 100, fun _ _ => ⟨255, 255, 255⟩⟩
    (fun _ _ _ _ => by
      show isBackgroundPixel ⟨255, 255, 255⟩ = true
      decide)

theorem scanPixel_rects_bound (img : Img) (st : ScanState) (p : ℤ × ℤ)
    (h : ∀ rect ∈ st.rects, 10 < rect.w ∧ 10 < rect.h) :
    ∀ rect ∈ (scanPixel img st p).rects, 10 < rect.w ∧ 10 < rect.h := by
  simp only [scanPixel]
  split
  · exact h
  · split
    · exact h
    · split
      · rename_i hc
        intro rect hrect
        rcases List.mem_append.mp hrect with hr | hr
        · exact h rect hr
        · rw [List.mem_singleton] at hr
          subst hr
          exact ⟨hc.1, hc.2⟩
      · exact h

theorem foldl_scanPixel_rects_bound (img : Img) :
    ∀ (l : List (ℤ × ℤ)) (st : ScanState),
      (∀ rect ∈ st.rects, 10 < rect.w ∧ 10 < rect.h) →
      ∀ rect ∈ (l.foldl (scanPixel img) st).rects, 10 < rect.w ∧ 10 < rect.h := by
  intro l
  induction l with
  | nil => intro st h; exact h
  | cons p tl ih =>
    intro st h
    rw [List.foldl_cons]
    exact ih _ (scanPixel_rects_bound img st p h)

/-- C4 (amended): the minimum-size check keeps a flood-filled component
exactly when `max_x - min_x > 10` and `max_y - min_y > 10`, i.e. when its
bounding box spans at least 12 pixels in each axis; the recorded rectangle
stores `min_x, min_y` and the extents `max_x - min_x`, `max_y - min_y`
together with the seed color, and every rectangle in the returned list has
both extents strictly greater than 10. -/
theorem c4_min_size_filter (img : Img) (st : ScanState) (p : ℤ × ℤ)
    (h1 : p ∉ st.visited)
    (h2 : isBackgroundPixel (img.pix p.2 p.1) = false)
    (bb : BBoxI) (hbb : (bfsFromSeed img st.visited p).2 = bb) :
    ((scanPixel img st p).rects =
      if 10 < bb.maxX - bb.minX ∧ 10 < bb.maxY - bb.minY then
        st.rects ++ [⟨bb.minX, bb.minY, bb.maxX - bb.minX,
          bb.maxY - bb.minY, img.pix p.2 p.1⟩]
      else st.rects)
    ∧ (∀ rect ∈ detectRectanglesBfs img, 10 < rect.w ∧ 10 < rect.h) := by
  constructor
  · simp only [scanPixel]
    rw [if_neg h1, if_neg (by simp [h2]), hbb]
    by_cases hc : 10 < bb.maxX - bb.minX ∧ 10 < bb.maxY - bb.minY
    · rw [if_pos hc, if_pos hc]
    · rw [if_neg hc, if_neg hc]
  · intro rect hrect
    exact foldl_scanPixel_rects_bound img (rasterPositions img) ⟨[], []⟩
      (by intro r hr; simp at hr) rect hrect

/-- C4 counterexample to the claim as stated: `imgThreeDots` has a single
connected component whose bounding box spans 10 pixels in each axis
(`max - min = 9`), so it is at least 10 pixels wide and 10 pixels tall,
yet the returned rectangle list is empty because the code requires
`max_x - min_x > 10 and max_y - min_y > 10`. -/
theorem c4_counterexample :
    (bfsFromSeed imgThreeDots [] (0, 0)).2 = ⟨0, 9, 0, 9⟩
    ∧ detectRectanglesBfs imgThreeDots = [] :=
  ⟨by set_option maxRecDepth 100000 in decide,
   by set_option maxRecDepth 100000 in decide⟩

theorem c4_witness :
    ((0, 0) ∉ (⟨[], []⟩ : ScanState).visited)
    ∧ isBackgroundPixel (imgFourDots.pix 0 0) = false
    ∧ (bfsFromSeed imgFourDots [] (0, 0)).2 = ⟨0, 11, 0, 11⟩
    ∧ (scanPixel imgFourDots ⟨[], []⟩ (0, 0)).rects
        = [⟨0, 0, 11, 11, ⟨255, 0, 0⟩⟩] :=
  ⟨by decide, by decide,
   by set_option maxRecDepth 100000 in decide,
   by
     have h := (c4_min_size_filter imgFourDots ⟨[], []⟩ (0, 0) (by decide)
       (by decide) ⟨0, 11, 0, 11⟩
       (by set_option maxRecDepth 100000 in decide)).1
     rw [h]
     set_option maxRecDepth 100000 in decide⟩

/-- C6: `extract_and_classify_furniture` fails with the decode error (the
`raise ValueError("Could not decode image")` that the specification names
`DecodeError`) when the image buffer cannot be decoded, and returns an
empty list as a plain successful value, not an error, when zero objects
survive segmentation and filtering; the error outcome carries no objects,
so no partial results are returned on failure. -/
theorem c6_decode_error_empty_ok {α : Type} (decodeImage : List ℕ → Option Img)
    (segmentImage : Img → List DetObj)
    (classifyObjects : Img → List DetObj → List α) (imageBytes : List ℕ) :
    (decodeImage imageBytes = none →
      extractAndClassifyFurniture decodeImage segmentImage classifyObjects
        imageBytes = Except.error SegError.decodeError)
    ∧ (∀ img, decodeImage imageBytes = some img → segmentImage img = [] →
      extractAndClassifyFurniture decodeImage segmentImage classifyObjects
        imageBytes = Except.ok []) := by
  constructor
  · intro h
    unfold extractAndClassifyFurniture
    rw [h]
  · intro img hd hs
    unfold extractAndClassifyFurniture
    rw [hd]
    simp [hs]

theorem c6_witness :
    extractAndClassifyFurniture (fun _ => none) (fun _ => [])
        (fun _ _ => ([] : List ℕ)) [] = Except.error SegError.decodeError
    ∧ extractAndClassifyFurniture
        (fun _ => some ⟨0, 0, fun _ _ => ⟨0, 0, 0⟩⟩) (fun _ => [])
        (fun _ _ => ([] : List ℕ)) [] = Except.ok [] :=
  ⟨(c6_decode_error_empty_ok (fun _ => none) (fun _ => [])
      (fun _ _ => ([] : List ℕ)) []).1 rfl,
   (c6_decode_error_empty_ok (fun _ => some ⟨0, 0, fun _ _ => ⟨0, 0, 0⟩⟩)
      (fun _ => []) (fun _ _ => ([] : List ℕ)) []).2
     ⟨0, 0, fun _ _ => ⟨0, 0, 0⟩⟩ rfl rfl⟩

end Dreamhouse
